import Mathlib

/-!
Verification of the LifelongVAE model core (`models/vae.py`, `helpers/utils.py`)
via a shallow embedding in Lean 4.

Tensors are embedded as lists of rationals (for exact arithmetic claims) or
lists of reals (for claims about `log`/`exp` identities); the batch dimension
is the outer list.  Python exceptions are embedded as `Except String`.
-/

namespace LifelongVAE

/-- The hyperparameter mapping handed to `VAE.__init__` as `kwargs['kwargs']`.
The float-valued fields (`mut_reg`, `lr`) are embedded as rationals. -/
structure Config where
  task : String
  input_shape : List Nat
  discrete_size : Nat
  continuous_size : Nat
  batch_size : Nat
  filter_depth : Nat
  mut_reg : ℚ
  lr : ℚ
  nll_type : String
  reparam_type : String
  layer_type : String
  deriving Repr, DecidableEq

/-! ### Construction-time validation (`VAE.__init__`, `build_encoder`, `build_decoder`)

`__init__` dispatches on `config['reparam_type']` and raises
`Exception("unknown reparameterization type")` for any other value; it then
calls `build_encoder` and `build_decoder`, each of which dispatches on
`config['layer_type']` and raises `Exception("unknown layer type requested")`
otherwise.  No other config key is validated during construction. -/

/-- The reparameterizer dispatch in `VAE.__init__` (vae.py lines 30-42). -/
def build_reparameterizer (c : Config) : Except String Unit :=
  if c.reparam_type = "isotropic_gaussian" then .ok ()
  else if c.reparam_type = "discrete" then .ok ()
  else if c.reparam_type = "mixture" then .ok ()
  else .error "unknown reparameterization type"

/-- The layer-type dispatch shared by `build_encoder` (vae.py lines 79-129)
and `build_decoder` (lines 142-184): anything other than `conv` or `dense`
raises. -/
def build_coder (c : Config) : Except String Unit :=
  if c.layer_type = "conv" then .ok ()
  else if c.layer_type = "dense" then .ok ()
  else .error "unknown layer type requested"

/-- `VAE.__init__` (vae.py lines 17-46): validate the reparameterizer type,
then build the encoder and the decoder (each of which validates
`layer_type`).  `nll_type` is never inspected here. -/
def VAE_init (c : Config) : Except String Unit :=
  match build_reparameterizer c with
  | .error e => .error e
  | .ok _ =>
    match build_coder c with      -- build_encoder
    | .error e => .error e
    | .ok _ =>
      match build_coder c with    -- build_decoder
      | .error e => .error e
      | .ok _ => .ok ()

/-! ### `helpers/utils.py`: `scale` and `one_hot` -/

/-- `scale(val, src, dst)` (utils.py lines 121-124):
`((val - src[0]) / (src[1]-src[0])) * (dst[1]-dst[0]) + dst[0]`. -/
def scale (val : ℚ) (src dst : ℚ × ℚ) : ℚ :=
  ((val - src.1) / (src.2 - src.1)) * (dst.2 - dst.1) + dst.1

/-- One row step of `mask.scatter_(1, index, ones)` for an `n x 1` index
tensor: row `i` of the mask gets value `v` written at column `index[i]`
(utils.py line 201).  Rows beyond the index length are unchanged (PyTorch
scatter iterates over the index tensor). -/
def scatter_dim1 : List (List Nat) → List Nat → Nat → List (List Nat)
  | [], _, _ => []
  | rows, [], _ => rows
  | row :: rest, j :: js, v => row.set j v :: scatter_dim1 rest js v

/-- `one_hot(size, index)` (utils.py lines 183-202): a zero `LongTensor` of
shape `size`, scattered with ones along dim 1 at the positions given by the
`n x 1` index tensor (here flattened to a length-`n` list). -/
def one_hot (size : Nat × Nat) (index : List Nat) : List (List Nat) :=
  scatter_dim1 (List.replicate size.1 (List.replicate size.2 0)) index 1

/-! ### `VAE.get_name` (vae.py lines 48-74) -/

/-- Python's `str` on a list of ints: `"[1, 28, 28]"`. -/
def pyListStr (l : List Nat) : String :=
  "[" ++ String.intercalate ", " (l.map toString) ++ "]"

/-- Python's `str.replace` for a single-character pattern, over the
character list of the string. -/
def pyReplace (s : List Char) (pat : Char) (r : List Char) : List Char :=
  s.flatMap (fun a => if a = pat then r else [a])

/-- Python's `str.strip()`: drop whitespace from both ends. -/
def pyStrip (s : List Char) : List Char :=
  ((s.dropWhile Char.isWhitespace).reverse.dropWhile Char.isWhitespace).reverse

/-- Python's `str.lower()`. -/
def pyLower (s : List Char) : List Char := s.map Char.toLower

/-- The character-stripping pipeline applied to the hash string
(vae.py lines 64-73): `strip().lower()` then the chain of `replace`s
(brackets, spaces, braces, parentheses, colons and quotes removed; commas
turned into underscores). -/
def stripName (s : String) : String :=
  let t := pyLower (pyStrip s.data)
  let t := pyReplace t '[' []
  let t := pyReplace t ']' []
  let t := pyReplace t ' ' []
  let t := pyReplace t (Char.ofNat 123) []   -- opening brace
  let t := pyReplace t (Char.ofNat 125) []   -- closing brace
  let t := pyReplace t ',' ['_']
  let t := pyReplace t ':' []
  let t := pyReplace t '(' []
  let t := pyReplace t ')' []
  let t := pyReplace t (Char.ofNat 39) []    -- single quote
  String.mk t

/-- `VAE.get_name` (vae.py lines 48-74).  For a mixture reparameterizer the
parameter segment records both latent sizes; otherwise only
`continuous_size` appears (as `latent<n>`).  `str(float)` for `mut_reg` and
`lr` is rendered through `ℚ`'s `toString`; the exact float formatting is
immaterial here — only that the rendering is a function of the value. -/
def get_name (c : Config) : String :=
  let param_str :=
    if c.reparam_type = "mixture" then
      "_disc" ++ toString c.discrete_size ++ "_cont" ++ toString c.continuous_size
    else
      "latent" ++ toString c.continuous_size
  let full_hash_str :=
    "_input" ++ pyListStr c.input_shape ++
    param_str ++
    "_batch" ++ toString c.batch_size ++
    "_mut" ++ toString c.mut_reg ++
    "_filter_depth" ++ toString c.filter_depth ++
    "_nll" ++ c.nll_type ++
    "_reparam" ++ c.reparam_type ++
    "_lr" ++ toString c.lr
  "vae_" ++ c.task ++ stripName full_hash_str

/-! ### NLL computation (`VAE.nll`, `nll_bernoulli`, `nll_gaussian`)

Tensors of shape `[batch, ...]` are embedded as `List (List ℝ)`: the outer
list is the batch dimension, each inner list the (flattened) per-example
features.  Two tensors have equal `size()` iff their row-length lists agree. -/

/-- One elementwise term of the stable Bernoulli NLL (vae.py lines 266-268):
`max_val = (-logits).clamp(min=0)` and
`logits - logits*x + max_val + log(exp(-max_val) + exp(-logits-max_val))`. -/
noncomputable def bern_elem (l x : ℝ) : ℝ :=
  let max_val := max (-l) 0
  l - l * x + max_val + Real.log (Real.exp (-max_val) + Real.exp (-l - max_val))

/-- `VAE.nll_bernoulli` (vae.py lines 261-269): assert equal sizes, flatten
each example, apply the stable elementwise form, sum over dim `-1` (one
scalar per batch row). -/
noncomputable def nll_bernoulli (recon_x_logits x : List (List ℝ)) : Except String (List ℝ) :=
  if recon_x_logits.map List.length = x.map List.length then
    .ok (List.zipWith (fun lrow xrow => (List.zipWith bern_elem lrow xrow).sum)
          recon_x_logits x)
  else
    .error "AssertionError"

/-- The exception message raised by every call of `nll_gaussian`. -/
def gaussianAttrError : String :=
  "AttributeError: VAE object has no attribute _log_unnormalized_prob"

/-- `VAE.nll_gaussian` (vae.py lines 271-286).  The body defines local helper
functions `_z`, `_log_unnormalized_prob`, `_log_normalization` but then
evaluates `self._log_unnormalized_prob(x, mu=recon_x_logits, logvar=logvar)`:
the helpers are local functions, not attributes of `self`, so the attribute
lookup raises `AttributeError` on every call, before any arithmetic (and the
keyword arguments `mu`/`logvar` would not match the helper signatures
either).  The embedding therefore returns this error unconditionally. -/
def nll_gaussian (recon_x_logits x : List (List ℝ)) (logvar : ℝ := 1) :
    Except String (List ℝ) :=
  .error gaussianAttrError

/-- `VAE.nll` (vae.py lines 254-259): dictionary dispatch on
`config['nll_type']`; an unknown key raises `KeyError`. -/
noncomputable def nll (c : Config) (recon_x x : List (List ℝ)) : Except String (List ℝ) :=
  if c.nll_type = "gaussian" then nll_gaussian recon_x x
  else if c.nll_type = "bernoulli" then nll_bernoulli recon_x x
  else .error "KeyError"

/-! ### `VAE.loss_function` (vae.py lines 293-314) -/

/-- A Python value that is either a float scalar or a 1-d tensor, as needed
for `mut_info` (initialized to the float `0.0`, promoted to a tensor only in
the mixture branch) and for the entries of the loss map. -/
inductive PyVal where
  | scalar : ℝ → PyVal
  | tensor : List ℝ → PyVal

/-- Elementwise tensor addition (`nll + kld`). -/
noncomputable def tadd (a b : List ℝ) : List ℝ := List.zipWith (· + ·) a b

/-- `torch.mean` of a 1-d tensor. -/
noncomputable def tmean (a : List ℝ) : ℝ := a.sum / a.length

/-- Multiplication of a Python scalar with a float-or-tensor value
(`self.config['mut_reg'] * mut_info`). -/
noncomputable def pymul (c : ℝ) : PyVal → PyVal
  | .scalar s => .scalar (c * s)
  | .tensor t => .tensor (t.map (fun y => c * y))

/-- `elbo - v` where `elbo` is a tensor and `v` a float or tensor
(broadcast subtraction). -/
noncomputable def pysub (a : List ℝ) : PyVal → List ℝ
  | .scalar s => a.map (fun y => y - s)
  | .tensor t => List.zipWith (fun y z => y - z) a t

/-- `0.0 + tensor`: the in-place `mut_info += ...` promotion in the mixture
branch (vae.py line 304). -/
noncomputable def floatPlusTensor (s : ℝ) (t : List ℝ) : List ℝ := t.map (fun y => s + y)

/-- `torch.mean(mut_info) if not isinstance(mut_info, float) else mut_info`
(vae.py line 313). -/
noncomputable def mutInfoMean : PyVal → ℝ
  | .scalar s => s
  | .tensor t => tmean t

/-- `VAE.loss_function` (vae.py lines 293-314).  `self.kld(params)` and
`self.reparameterizer.mutual_info(params)` delegate to the reparameterizer
(`models/mixture.py` etc., outside this snapshot's sources); their resulting
per-example tensors are taken as the arguments `kld` and `mutual_info`,
exactly as `loss_function` consumes them.  `mut_info` starts as the float
`0.0` and becomes a tensor only in the mixture branch. -/
noncomputable def loss_function (c : Config) (recon_x x : List (List ℝ))
    (kld mutual_info : List ℝ) : Except String (List (String × PyVal)) :=
  match nll c recon_x x with
  | .error e => .error e
  | .ok nllv =>
    let elbo := tadd nllv kld
    let mut_info : PyVal :=
      if c.reparam_type = "mixture" then .tensor (floatPlusTensor 0 mutual_info)
      else .scalar 0
    let loss := pysub elbo (pymul (c.mut_reg : ℝ) mut_info)
    .ok [("loss", .tensor loss),
         ("loss_mean", .scalar (tmean loss)),
         ("elbo_mean", .scalar (tmean elbo)),
         ("nll_mean", .scalar (tmean nllv)),
         ("kld_mean", .scalar (tmean kld)),
         ("mut_info_mean", .scalar (mutInfoMean mut_info))]

/-! ### Lazy projection layer (`VAE._lazy_init_dense`, `VAE.encode`) -/

/-- The part of the module state relevant to the lazily-built
encoder-to-reparameterizer projection: `enc_proj` is absent (`hasattr`
false) until the first `encode`, then holds the input width the `View` and
`Linear` were built with. -/
structure LazyState where
  enc_proj : Option Nat
  deriving Repr, DecidableEq

/-- `VAE._lazy_init_dense` (vae.py lines 194-213): build the projection
(`View([-1, input_size])` followed by `Linear(input_size, output_size)`)
only if the attribute is not already present. -/
def lazy_init_dense (s : LazyState) (input_size : Nat) : LazyState :=
  match s.enc_proj with
  | none => { enc_proj := some input_size }
  | some _ => s

/-- `View([-1, width])` on a tensor of `total` elements: PyTorch's `view`
succeeds iff `total` is a multiple of `width`, yielding `total / width`
rows; otherwise it raises `RuntimeError` (invalid shape). -/
def view_reshape (total width : Nat) : Except String Nat :=
  if width ≠ 0 ∧ total % width = 0 then .ok (total / width)
  else .error "RuntimeError: shape invalid for input size"

/-- `VAE.encode` (vae.py lines 227-237), tracking only the shapes: the
convolution output has `batch` rows of `conv_output_shp` elements each;
`_lazy_init_dense(conv_output_shp, ...)` fixes the projection width on the
first call; `self.enc_proj(conv)` then reshapes the `batch * conv_output_shp`
elements through `View([-1, width])`.  Returns the new state and, on
success, the row count the linear layer actually sees. -/
def encode (s : LazyState) (batch conv_output_shp : Nat) :
    LazyState × Except String Nat :=
  let s' := lazy_init_dense s conv_output_shp
  let w := s'.enc_proj.getD conv_output_shp
  (s', view_reshape (batch * conv_output_shp) w)

/-! ### Reference definitions and concrete configurations -/

/-- The logistic sigmoid, `torch.sigmoid`. -/
noncomputable def sigmoid (l : ℝ) : ℝ := 1 / (1 + Real.exp (-l))

/-- The reference (naive) Bernoulli cross-entropy from the specification:
`-[x*log(sigmoid(logits)) + (1-x)*log(1-sigmoid(logits))]`. -/
noncomputable def bce_ref (l x : ℝ) : ℝ :=
  -(x * Real.log (sigmoid l) + (1 - x) * Real.log (1 - sigmoid l))

/-- A valid configuration (MNIST defaults of `main.py`, dense layers,
discrete reparameterizer). -/
def baseConfig : Config :=
  { task := "mnist", input_shape := [1, 28, 28], discrete_size := 10,
    continuous_size := 8, batch_size := 64, filter_depth := 32,
    mut_reg := mkRat 3 10, lr := mkRat 1 1000, nll_type := "bernoulli",
    reparam_type := "discrete", layer_type := "dense" }

/-- `baseConfig` with a mixture reparameterizer. -/
def mixConfig : Config := { baseConfig with reparam_type := "mixture" }

/-- `baseConfig` with the Gaussian observation model. -/
def gaussConfig : Config := { baseConfig with nll_type := "gaussian" }

/-- A character that every stage of the name-stripping pipeline leaves
unchanged: not whitespace, already lowercase, and not in the replaced set. -/
def cleanChar (ch : Char) : Bool :=
  !ch.isWhitespace && (ch.toLower == ch) &&
  !(['[', ']', ' ', Char.ofNat 123, Char.ofNat 125, ',', ':', '(', ')',
     Char.ofNat 39].contains ch)

/-- The lowercasing and replacement stages of `stripName` (everything after
the initial `strip()`). -/
def normChars (t0 : List Char) : List Char :=
  let t := pyLower t0
  let t := pyReplace t '[' []
  let t := pyReplace t ']' []
  let t := pyReplace t ' ' []
  let t := pyReplace t (Char.ofNat 123) []
  let t := pyReplace t (Char.ofNat 125) []
  let t := pyReplace t ',' ['_']
  let t := pyReplace t ':' []
  let t := pyReplace t '(' []
  let t := pyReplace t ')' []
  let t := pyReplace t (Char.ofNat 39) []
  t

/-- What the stripping pipeline leaves of `str(input_shape)`: the decimal
renderings of the entries joined by underscores. -/
def joinShape : List ℕ → List Char
  | [] => []
  | n :: rest => (Nat.repr n).data ++ rest.flatMap (fun a => '_' :: (Nat.repr a).data)

/-! ### General list lemmas -/

/-- `getD` of a `zipWith` at an in-range index. -/
theorem getD_zipWith {α β γ : Type} (f : α → β → γ) (da : α) (db : β) (dc : γ) :
    ∀ (a : List α) (b : List β) (i : ℕ), i < a.length → a.length = b.length →
      (List.zipWith f a b).getD i dc = f (a.getD i da) (b.getD i db) := by
  intro a
  induction a with
  | nil => intro b i hi _; simp at hi
  | cons x xs ih =>
    intro b i hi hlen
    cases b with
    | nil => simp at hlen
    | cons y ys =>
      cases i with
      | zero => simp
      | succ n =>
        simp only [List.zipWith_cons_cons, List.getD_cons_succ]
        exact ih ys n (by simpa using hi) (by simpa using hlen)

/-- `getD` of a `map` at an in-range index. -/
theorem getD_map {α β : Type} (f : α → β) (da : α) (db : β) :
    ∀ (a : List α) (i : ℕ), i < a.length →
      (a.map f).getD i db = f (a.getD i da) := by
  intro a
  induction a with
  | nil => intro i hi; simp at hi
  | cons x xs ih =>
    intro i hi
    cases i with
    | zero => simp
    | succ n =>
      simp only [List.map_cons, List.getD_cons_succ]
      exact ih n (by simpa using hi)

/-- Subtracting a same-length tensor of zeros elementwise is the identity. -/
theorem zipWith_sub_replicate_zero :
    ∀ a : List ℝ, List.zipWith (fun y z => y - z) a (List.replicate a.length (0:ℝ)) = a := by
  intro a
  induction a with
  | nil => rfl
  | cons x xs ih => simp [List.replicate_succ, ih]

/-! ### C10: `scale` is the affine map between the two ranges -/

/-- C10: for every pair of ranges `src`, `dst` with `src.2 ≠ src.1`,
`scale` maps the source range endpoints to the destination range endpoints
exactly, over rational arithmetic. -/
theorem scale_affine (src dst : ℚ × ℚ) (h : src.2 ≠ src.1) :
    scale src.1 src dst = dst.1 ∧ scale src.2 src dst = dst.2 := by
  constructor
  · simp [scale]
  · unfold scale
    rw [div_self (sub_ne_zero.mpr h), one_mul]
    ring

/-- Witness for C10 at `src = (0, 2)`, `dst = (3, 7)`. -/
theorem scale_affine_witness :
    ((0:ℚ), (2:ℚ)).2 ≠ ((0:ℚ), (2:ℚ)).1 ∧
    (scale ((0:ℚ), (2:ℚ)).1 ((0:ℚ), (2:ℚ)) ((3:ℚ), (7:ℚ)) = 3 ∧
     scale ((0:ℚ), (2:ℚ)).2 ((0:ℚ), (2:ℚ)) ((3:ℚ), (7:ℚ)) = 7) :=
  ⟨by decide, scale_affine ((0:ℚ), (2:ℚ)) ((3:ℚ), (7:ℚ)) (by decide)⟩

/-! ### C2: construction-time validation -/

/-- C2 counterexample: a config whose `nll_type` is the unknown value
`"poisson"` (with valid `reparam_type` and `layer_type`) is accepted by
construction — no error is raised until `nll` itself is called, where the
dictionary dispatch fails with `KeyError`.  This refutes the claim that an
unknown `nll_type` raises a fatal configuration error at construction
time. -/
theorem vae_init_accepts_unknown_nll_type :
    VAE_init { baseConfig with nll_type := "poisson" } = .ok () ∧
    nll { baseConfig with nll_type := "poisson" } [[]] [[]] = .error "KeyError" :=
  ⟨rfl, rfl⟩

/-- C2 (amended): construction succeeds exactly when `reparam_type` and
`layer_type` are valid — an unknown value of either raises at construction
time, and valid values of both (whatever `nll_type` is) construct without
raising; an unknown `nll_type` instead makes every later `nll` call raise
`KeyError`. -/
theorem vae_init_validation (c : Config) :
    ((VAE_init c).isOk = true ↔
      ((c.reparam_type = "isotropic_gaussian" ∨ c.reparam_type = "discrete" ∨
        c.reparam_type = "mixture") ∧
       (c.layer_type = "conv" ∨ c.layer_type = "dense"))) ∧
    (c.nll_type ≠ "gaussian" → c.nll_type ≠ "bernoulli" →
      ∀ recon_x x, nll c recon_x x = .error "KeyError") := by
  constructor
  · unfold VAE_init build_reparameterizer build_coder
    by_cases h1 : c.reparam_type = "isotropic_gaussian" <;>
      by_cases h2 : c.reparam_type = "discrete" <;>
        by_cases h3 : c.reparam_type = "mixture" <;>
          by_cases h4 : c.layer_type = "conv" <;>
            by_cases h5 : c.layer_type = "dense" <;>
              simp [h1, h2, h3, h4, h5, Except.isOk, Except.toBool]
  · intro hg hb recon_x x
    unfold nll
    rw [if_neg hg, if_neg hb]

/-- Witness for C2 (amended) at `baseConfig` with `nll_type := "poisson"`. -/
theorem vae_init_validation_witness :
    ((VAE_init { baseConfig with nll_type := "poisson" }).isOk = true ↔
      (({ baseConfig with nll_type := "poisson" } : Config).reparam_type = "isotropic_gaussian" ∨
       ({ baseConfig with nll_type := "poisson" } : Config).reparam_type = "discrete" ∨
       ({ baseConfig with nll_type := "poisson" } : Config).reparam_type = "mixture") ∧
      (({ baseConfig with nll_type := "poisson" } : Config).layer_type = "conv" ∨
       ({ baseConfig with nll_type := "poisson" } : Config).layer_type = "dense")) ∧
    nll { baseConfig with nll_type := "poisson" } [[]] [[]] = .error "KeyError" :=
  ⟨(vae_init_validation { baseConfig with nll_type := "poisson" }).1,
   (vae_init_validation { baseConfig with nll_type := "poisson" }).2
     (by decide) (by decide) [[]] [[]]⟩

/-! ### C5: lazy `enc_proj` lifecycle -/

/-- C5 counterexample: after a first `encode` with per-example conv size 4
(which builds `enc_proj` with input width 4), a second call with
per-example conv size 8 is NOT rejected: the layer is silently reused, the
`View([-1, 4])` reinterprets the 8 elements as 2 rows, and the call returns
a value (`.ok 2`).  This refutes the claim that every subsequent call with
a different spatial shape fails with a precondition error. -/
theorem encode_reuses_layer_on_new_shape :
    encode { enc_proj := none } 1 4 = ({ enc_proj := some 4 }, .ok 1) ∧
    encode { enc_proj := some 4 } 1 8 = ({ enc_proj := some 4 }, .ok 2) :=
  ⟨rfl, rfl⟩

/-- C5 (amended): `enc_proj` is built exactly once — the first `encode`
fixes its width to that call's per-example conv size, and every later call
leaves the stored layer unchanged.  A later call with a different
per-example size is not rejected by any shape precondition: it succeeds
(silently reusing the layer, with the batch dimension reinterpreted as
`batch * conv_output_shp / w`) exactly when `batch * conv_output_shp` is a
multiple of the stored width `w`, and errors only from the reshape
otherwise. -/
theorem encode_lazy_lifecycle (s : LazyState) (w batch conv_output_shp : Nat)
    (hs : s.enc_proj = some w) :
    (encode s batch conv_output_shp).1 = s ∧
    ((encode s batch conv_output_shp).2 = .ok (batch * conv_output_shp / w) ↔
      (w ≠ 0 ∧ batch * conv_output_shp % w = 0)) ∧
    (encode { enc_proj := none } batch conv_output_shp).1 =
      { enc_proj := some conv_output_shp } := by
  cases s with
  | mk p =>
    simp only at hs
    subst hs
    refine ⟨rfl, ?_, rfl⟩
    simp only [encode, lazy_init_dense, view_reshape, Option.getD_some]
    split_ifs with h
    · simp
      exact h
    · simp
      intro hne
      exact fun hmod => h ⟨hne, hmod⟩

/-- Witness for C5 (amended) at a state with stored width 4 and a second
call of total size 8. -/
theorem encode_lazy_lifecycle_witness :
    (({ enc_proj := some 4 } : LazyState).enc_proj = some 4) ∧
    ((encode { enc_proj := some 4 } 1 8).1 = { enc_proj := some 4 } ∧
     ((encode { enc_proj := some 4 } 1 8).2 = .ok (1 * 8 / 4) ↔
       ((4:Nat) ≠ 0 ∧ 1 * 8 % 4 = 0)) ∧
     (encode { enc_proj := none } 1 8).1 = { enc_proj := some 8 }) :=
  ⟨rfl, encode_lazy_lifecycle { enc_proj := some 4 } 4 1 8 rfl⟩

/-! ### C6: `get_name` determinism and sensitivity -/

/-- C6 counterexample: two configs that differ in a topologically relevant
hyperparameter (`discrete_size` 10 vs 20) but use a non-mixture
`reparam_type` receive the SAME name, because the non-mixture branch of
`get_name` renders only `continuous_size`.  This refutes the claim that
changing `discrete_size` yields a different string for every
`reparam_type`. -/
theorem get_name_discrete_size_collision :
    baseConfig ≠ { baseConfig with discrete_size := 20 } ∧
    get_name baseConfig = get_name { baseConfig with discrete_size := 20 } :=
  ⟨by decide, by decide⟩

/-! ### C4: the stable Bernoulli NLL equals the reference cross-entropy -/

/-- The elementwise log-sum-exp form equals the reference cross-entropy,
exactly over the reals. -/
theorem bern_elem_eq_bce_ref (l x : ℝ) : bern_elem l x = bce_ref l x := by
  have he : (0:ℝ) < Real.exp (-l) := Real.exp_pos _
  have h1 : (0:ℝ) < 1 + Real.exp (-l) := by linarith
  have hs : sigmoid l = (1 + Real.exp (-l))⁻¹ := by
    unfold sigmoid; rw [one_div]
  have hs' : 1 - sigmoid l = Real.exp (-l) / (1 + Real.exp (-l)) := by
    rw [hs]
    field_simp
  have hlog1 : Real.log (sigmoid l) = -Real.log (1 + Real.exp (-l)) := by
    rw [hs, Real.log_inv]
  have hlog2 : Real.log (1 - sigmoid l) = -l - Real.log (1 + Real.exp (-l)) := by
    rw [hs', Real.log_div (ne_of_gt he) (ne_of_gt h1), Real.log_exp]
  have hsum : Real.exp (-(max (-l) 0)) + Real.exp (-l - max (-l) 0)
      = Real.exp (-(max (-l) 0)) * (1 + Real.exp (-l)) := by
    rw [show -l - max (-l) 0 = -(max (-l) 0) + -l by ring, Real.exp_add]
    ring
  simp only [bern_elem, bce_ref]
  rw [hsum, Real.log_mul (Real.exp_ne_zero _) (ne_of_gt h1), Real.log_exp,
    hlog1, hlog2]
  ring

/-- C4: for tensors of equal shape, `nll_bernoulli` succeeds and returns,
per batch row, the sum over the non-batch dimensions of the reference
Bernoulli cross-entropy `-[x*log(sigmoid(l)) + (1-x)*log(1-sigmoid(l))]` —
the stable log-sum-exp form equals the naive form exactly over the reals —
and the result has one scalar per batch row. -/
theorem nll_bernoulli_matches_reference (recon_x_logits x : List (List ℝ))
    (h : recon_x_logits.map List.length = x.map List.length) :
    nll_bernoulli recon_x_logits x =
      .ok (List.zipWith (fun lrow xrow => (List.zipWith bce_ref lrow xrow).sum)
            recon_x_logits x) ∧
    (List.zipWith (fun lrow xrow => (List.zipWith bce_ref lrow xrow).sum)
        recon_x_logits x).length = recon_x_logits.length := by
  have hfun : bern_elem = bce_ref :=
    funext fun l => funext fun y => bern_elem_eq_bce_ref l y
  have hlen : recon_x_logits.length = x.length := by
    have := congrArg List.length h
    simpa using this
  constructor
  · unfold nll_bernoulli
    rw [if_pos h, hfun]
  · rw [List.length_zipWith _ recon_x_logits x, hlen, min_self]

/-- Witness for C4 at `recon_x_logits = [[0]]`, `x = [[0]]`. -/
theorem nll_bernoulli_matches_reference_witness :
    ([[(0:ℝ)]].map List.length = [[(0:ℝ)]].map List.length) ∧
    (nll_bernoulli [[(0:ℝ)]] [[(0:ℝ)]] =
       .ok (List.zipWith (fun lrow xrow => (List.zipWith bce_ref lrow xrow).sum)
             [[(0:ℝ)]] [[(0:ℝ)]]) ∧
     (List.zipWith (fun lrow xrow => (List.zipWith bce_ref lrow xrow).sum)
         [[(0:ℝ)]] [[(0:ℝ)]]).length = [[(0:ℝ)]].length) :=
  ⟨rfl, nll_bernoulli_matches_reference [[(0:ℝ)]] [[(0:ℝ)]] rfl⟩

/-! ### C3: the Gaussian NLL branch is broken at every call -/

/-- C3: the code cannot return the (corrected) negative Gaussian
log-likelihood — evaluating `nll_gaussian` on any input, here
`recon_x_logits = [[0]]`, `x = [[0]]`, raises `AttributeError` before any
arithmetic, because the body accesses `self._log_unnormalized_prob`, a
local function that is not an attribute of the module (with keyword
arguments `mu`/`logvar` that would not match the helper's `loc`/`scale`
parameters anyway).  And the result is not a negation of a log-likelihood:
no value is returned at all. -/
theorem nll_gaussian_always_raises :
    nll_gaussian [[(0:ℝ)]] [[(0:ℝ)]] = .error gaussianAttrError ∧
    (nll_gaussian [[(0:ℝ)]] [[(0:ℝ)]]).isOk = false :=
  ⟨rfl, rfl⟩

/-! ### C7: shape mismatch behaviour of `nll` -/

/-- C7 counterexample: in the `'gaussian'` branch a shape-mismatched call
(`recon_x = [[1, 2]]` vs `x = [[1]]`) does fail, but with the
`AttributeError` that every `nll_gaussian` call raises — not with an
assert-like shape precondition (the same error occurs with perfectly
matching shapes, as the third conjunct shows).  Only the `'bernoulli'`
branch has the shape assert. -/
theorem nll_gaussian_mismatch_is_not_assert :
    nll gaussConfig [[(1:ℝ), 2]] [[(1:ℝ)]] = .error gaussianAttrError ∧
    gaussianAttrError ≠ "AssertionError" ∧
    nll gaussConfig [[(1:ℝ)]] [[(1:ℝ)]] = .error gaussianAttrError :=
  ⟨rfl, by decide, rfl⟩

/-- C7 (amended): for every `recon_x` and `x` whose shapes differ, `nll`
fails rather than returning a value in both branches — the `'bernoulli'`
branch with the assert on equal sizes, the `'gaussian'` branch with the
`AttributeError` it raises on every call (a failure independent of any
shape check). -/
theorem nll_shape_mismatch_fails (c : Config) (recon_x x : List (List ℝ))
    (h : recon_x.map List.length ≠ x.map List.length) :
    (c.nll_type = "bernoulli" → nll c recon_x x = .error "AssertionError") ∧
    (c.nll_type = "gaussian" → nll c recon_x x = .error gaussianAttrError) := by
  constructor
  · intro hb
    unfold nll nll_bernoulli
    rw [hb]
    rw [if_neg (by decide : ¬ ("bernoulli" = "gaussian")), if_pos rfl, if_neg h]
  · intro hg
    unfold nll
    rw [hg, if_pos rfl]
    rfl

/-- Witness for C7 (amended) at `baseConfig` (bernoulli) with
`recon_x = [[1, 2]]`, `x = [[1]]`. -/
theorem nll_shape_mismatch_fails_witness :
    ([[(1:ℝ), 2]].map List.length ≠ [[(1:ℝ)]].map List.length) ∧
    ((baseConfig.nll_type = "bernoulli" →
        nll baseConfig [[(1:ℝ), 2]] [[(1:ℝ)]] = .error "AssertionError") ∧
     (baseConfig.nll_type = "gaussian" →
        nll baseConfig [[(1:ℝ), 2]] [[(1:ℝ)]] = .error gaussianAttrError)) :=
  ⟨by decide, nll_shape_mismatch_fails baseConfig [[(1:ℝ), 2]] [[(1:ℝ)]] (by decide)⟩

/-! ### C1 / C8: the loss map -/

/-- A successful `nll` yields one scalar per batch row. -/
theorem nll_ok_length (c : Config) (recon_x x : List (List ℝ)) (v : List ℝ)
    (h : nll c recon_x x = .ok v) : v.length = recon_x.length := by
  unfold nll at h
  split_ifs at h with hg hb
  · simp [nll_gaussian] at h
  · unfold nll_bernoulli at h
    split_ifs at h with hsh
    injection h with h'
    subst h'
    rw [List.length_zipWith]
    have hxy : recon_x.length = x.length := by
      simpa using congrArg List.length hsh
    rw [← hxy, min_self]

/-- C1: the loss map satisfies `loss == nll + kld - mut_reg * mut_info`
elementwise (with `mut_info = 0` whenever `reparam_type` is not
`"mixture"`); `loss_mean`, `elbo_mean`, `nll_mean` and `kld_mean` are the
batch means of the per-example loss, `nll + kld`, `nll` and `kld`; and when
the effective mutual information is a zero tensor the loss equals the elbo
exactly. -/
theorem loss_function_invariant (c : Config) (recon_x x : List (List ℝ))
    (nllv kld mutual_info : List ℝ)
    (hn : nll c recon_x x = .ok nllv)
    (hk : kld.length = nllv.length)
    (hm : mutual_info.length = nllv.length) :
    ∃ (loss : List ℝ) (mim : ℝ),
      loss_function c recon_x x kld mutual_info =
        .ok [("loss", PyVal.tensor loss),
             ("loss_mean", PyVal.scalar (tmean loss)),
             ("elbo_mean", PyVal.scalar (tmean (tadd nllv kld))),
             ("nll_mean", PyVal.scalar (tmean nllv)),
             ("kld_mean", PyVal.scalar (tmean kld)),
             ("mut_info_mean", PyVal.scalar mim)] ∧
      loss.length = nllv.length ∧
      (∀ i, i < nllv.length →
        loss.getD i 0 = nllv.getD i 0 + kld.getD i 0 -
          (c.mut_reg : ℝ) *
            (if c.reparam_type = "mixture" then mutual_info.getD i 0 else 0)) ∧
      ((c.reparam_type = "mixture" → mutual_info = List.replicate nllv.length 0) →
        loss = tadd nllv kld) := by
  have helbo : (tadd nllv kld).length = nllv.length := by
    rw [tadd, List.length_zipWith _ nllv kld, hk, min_self]
  by_cases hmix : c.reparam_type = "mixture"
  · refine ⟨pysub (tadd nllv kld)
        (pymul (c.mut_reg : ℝ) (.tensor (floatPlusTensor 0 mutual_info))),
      mutInfoMean (.tensor (floatPlusTensor 0 mutual_info)), ?_, ?_, ?_, ?_⟩
    · simp only [loss_function, hn, hmix, if_pos]
    · simp only [pysub, pymul, floatPlusTensor]
      rw [List.length_zipWith _ (tadd nllv kld) _, helbo]
      simp [hm]
    · intro i hi
      rw [if_pos hmix]
      simp only [pysub, pymul, floatPlusTensor, tadd]
      rw [getD_zipWith _ 0 0 0 _ _ i
            (by simpa [List.length_zipWith, hk] using hi)
            (by simp [List.length_zipWith, hk, hm]),
          getD_zipWith _ 0 0 0 nllv kld i hi hk.symm,
          getD_map _ 0 0 _ i (by simpa [hm] using hi),
          getD_map _ 0 0 mutual_info i (by rw [hm]; exact hi)]
      ring
    · intro hz
      have hz' := hz hmix
      subst hz'
      simp only [pysub, pymul, floatPlusTensor, List.map_replicate]
      have h0 : ((0:ℝ) + 0) = 0 := by ring
      rw [h0]
      have h1 : ((c.mut_reg : ℝ) * 0) = 0 := by ring
      rw [h1]
      have hrep : List.replicate nllv.length (0:ℝ) =
          List.replicate (tadd nllv kld).length (0:ℝ) := by rw [helbo]
      rw [hrep]
      exact zipWith_sub_replicate_zero (tadd nllv kld)
  · refine ⟨pysub (tadd nllv kld) (pymul (c.mut_reg : ℝ) (.scalar 0)),
      0, ?_, ?_, ?_, ?_⟩
    · simp only [loss_function, hn, if_neg hmix]
      rfl
    · simp only [pysub, pymul]
      rw [List.length_map, helbo]
    · intro i hi
      rw [if_neg hmix]
      simp only [pysub, pymul, tadd]
      rw [getD_map _ 0 0 _ i
            (by simpa [List.length_zipWith, hk] using hi),
          getD_zipWith _ 0 0 0 nllv kld i hi hk.symm]
    · intro _
      simp only [pysub, pymul, mul_zero, sub_zero, List.map_id']

/-- Witness for C1 at `mixConfig`, one empty-feature batch row,
`nll = [0]`, `kld = [1]`, `mutual_info = [0]`. -/
theorem loss_function_invariant_witness :
    nll mixConfig [[]] [[]] = .ok [(0:ℝ)] ∧
    [(1:ℝ)].length = [(0:ℝ)].length ∧
    [(0:ℝ)].length = [(0:ℝ)].length ∧
    (∃ (loss : List ℝ) (mim : ℝ),
      loss_function mixConfig [[]] [[]] [(1:ℝ)] [(0:ℝ)] =
        .ok [("loss", PyVal.tensor loss),
             ("loss_mean", PyVal.scalar (tmean loss)),
             ("elbo_mean", PyVal.scalar (tmean (tadd [(0:ℝ)] [(1:ℝ)]))),
             ("nll_mean", PyVal.scalar (tmean [(0:ℝ)])),
             ("kld_mean", PyVal.scalar (tmean [(1:ℝ)])),
             ("mut_info_mean", PyVal.scalar mim)] ∧
      loss.length = [(0:ℝ)].length ∧
      (∀ i, i < [(0:ℝ)].length →
        loss.getD i 0 = [(0:ℝ)].getD i 0 + [(1:ℝ)].getD i 0 -
          (mixConfig.mut_reg : ℝ) *
            (if mixConfig.reparam_type = "mixture"
             then [(0:ℝ)].getD i 0 else 0)) ∧
      ((mixConfig.reparam_type = "mixture" →
          [(0:ℝ)] = List.replicate [(0:ℝ)].length 0) →
        loss = tadd [(0:ℝ)] [(1:ℝ)])) :=
  ⟨rfl, rfl, rfl,
   loss_function_invariant mixConfig [[]] [[]] [(0:ℝ)] [(1:ℝ)] [(0:ℝ)] rfl rfl rfl⟩

/-- C8: every successful `loss_function` call returns a mapping whose key
sequence is exactly `loss`, `loss_mean`, `elbo_mean`, `nll_mean`,
`kld_mean`, `mut_info_mean`, where `loss` is the per-example tensor with
one scalar per batch row and the other five entries are scalars. -/
theorem loss_function_key_set (c : Config) (recon_x x : List (List ℝ))
    (nllv kld mutual_info : List ℝ)
    (hn : nll c recon_x x = .ok nllv)
    (hk : kld.length = nllv.length)
    (hm : mutual_info.length = nllv.length) :
    ∃ (loss : List ℝ) (lmean emean nmean kmean mim : ℝ),
      loss_function c recon_x x kld mutual_info =
        .ok [("loss", PyVal.tensor loss),
             ("loss_mean", PyVal.scalar lmean),
             ("elbo_mean", PyVal.scalar emean),
             ("nll_mean", PyVal.scalar nmean),
             ("kld_mean", PyVal.scalar kmean),
             ("mut_info_mean", PyVal.scalar mim)] ∧
      loss.length = recon_x.length := by
  have hb : nllv.length = recon_x.length := nll_ok_length c recon_x x nllv hn
  have helbo : (tadd nllv kld).length = nllv.length := by
    rw [tadd, List.length_zipWith _ nllv kld, hk, min_self]
  by_cases hmix : c.reparam_type = "mixture"
  · refine ⟨pysub (tadd nllv kld)
        (pymul (c.mut_reg : ℝ) (.tensor (floatPlusTensor 0 mutual_info))),
      tmean (pysub (tadd nllv kld)
        (pymul (c.mut_reg : ℝ) (.tensor (floatPlusTensor 0 mutual_info)))),
      tmean (tadd nllv kld), tmean nllv, tmean kld,
      mutInfoMean (.tensor (floatPlusTensor 0 mutual_info)), ?_, ?_⟩
    · simp only [loss_function, hn, hmix, if_pos]
    · simp only [pysub, pymul, floatPlusTensor]
      rw [List.length_zipWith _ (tadd nllv kld) _, helbo]
      simp [hm, hb]
  · refine ⟨pysub (tadd nllv kld) (pymul (c.mut_reg : ℝ) (.scalar 0)),
      tmean (pysub (tadd nllv kld) (pymul (c.mut_reg : ℝ) (.scalar 0))),
      tmean (tadd nllv kld), tmean nllv, tmean kld, 0, ?_, ?_⟩
    · simp only [loss_function, hn, if_neg hmix]
      rfl
    · simp only [pysub, pymul]
      rw [List.length_map, helbo, hb]

/-- Witness for C8 at `baseConfig`, one empty-feature batch row. -/
theorem loss_function_key_set_witness :
    nll baseConfig [[]] [[]] = .ok [(0:ℝ)] ∧
    [(1:ℝ)].length = [(0:ℝ)].length ∧
    [(0:ℝ)].length = [(0:ℝ)].length ∧
    (∃ (loss : List ℝ) (lmean emean nmean kmean mim : ℝ),
      loss_function baseConfig [[]] [[]] [(1:ℝ)] [(0:ℝ)] =
        .ok [("loss", PyVal.tensor loss),
             ("loss_mean", PyVal.scalar lmean),
             ("elbo_mean", PyVal.scalar emean),
             ("nll_mean", PyVal.scalar nmean),
             ("kld_mean", PyVal.scalar kmean),
             ("mut_info_mean", PyVal.scalar mim)] ∧
      loss.length = ([[]] : List (List ℝ)).length) :=
  ⟨rfl, rfl, rfl,
   loss_function_key_set baseConfig [[]] [[]]
     [(0:ℝ)] [(1:ℝ)] [(0:ℝ)] rfl rfl rfl⟩

/-! ### C9: `one_hot` -/

/-- Scattering into `n` identical rows with an index list of length `n`
sets one entry per row. -/
theorem scatter_dim1_replicate (v : Nat) :
    ∀ (idx : List Nat) (n : Nat) (row : List Nat), idx.length = n →
      scatter_dim1 (List.replicate n row) idx v =
        idx.map (fun j => row.set j v) := by
  intro idx
  induction idx with
  | nil =>
    intro n row h
    cases h
    rfl
  | cons j js ih =>
    intro n row h
    cases n with
    | zero => simp at h
    | succ m =>
      simp only [List.replicate_succ, List.map_cons]
      show row.set j v :: scatter_dim1 (List.replicate m row) js v = _
      rw [ih m row (by simpa using h)]

/-- Every entry of an all-zero row reads back as zero. -/
theorem replicate_zero_getD : ∀ k i : Nat, (List.replicate k (0:Nat)).getD i 0 = 0 := by
  intro k
  induction k with
  | zero => intro i; cases i <;> rfl
  | succ m ih =>
    intro i
    cases i with
    | zero => rfl
    | succ p => simp [List.replicate_succ, ih p]

/-- Reading back an all-zero row with one entry set to `v`. -/
theorem set_replicate_getD (v : Nat) :
    ∀ k j i : Nat, j < k → i < k →
      ((List.replicate k (0:Nat)).set j v).getD i 0 = if i = j then v else 0 := by
  intro k
  induction k with
  | zero => intro j i hj _; exact absurd hj (Nat.not_lt_zero j)
  | succ m ih =>
    intro j i hj hi
    cases j with
    | zero =>
      cases i with
      | zero => simp [List.replicate_succ]
      | succ p => simp [List.replicate_succ, replicate_zero_getD]
    | succ jj =>
      cases i with
      | zero => simp [List.replicate_succ]
      | succ p =>
        simp only [List.replicate_succ, List.set_cons_succ, List.getD_cons_succ]
        rw [ih jj p (Nat.lt_of_succ_lt_succ hj) (Nat.lt_of_succ_lt_succ hi)]
        simp

/-- The row sum after setting one zero entry to one is exactly one. -/
theorem set_replicate_sum :
    ∀ k j : Nat, j < k → ((List.replicate k (0:Nat)).set j 1).sum = 1 := by
  intro k
  induction k with
  | zero => intro j hj; exact absurd hj (Nat.not_lt_zero j)
  | succ m ih =>
    intro j hj
    cases j with
    | zero => simp [List.replicate_succ, List.sum_replicate]
    | succ jj =>
      simp [List.replicate_succ, ih jj (Nat.lt_of_succ_lt_succ hj)]

/-- C9: for `n, k > 0` and an index list of length `n` with entries in
`[0, k)`, `one_hot (n, k) index` is an `n × k` matrix whose row `i` is zero
everywhere except a single entry `1` at column `index[i]`; in particular
every row sums to exactly 1. -/
theorem one_hot_spec (n k : Nat) (index : List Nat)
    (hn : 0 < n) (hk : 0 < k) (hlen : index.length = n)
    (hbound : ∀ j ∈ index, j < k) :
    (one_hot (n, k) index).length = n ∧
    (∀ i, i < n →
      ((one_hot (n, k) index).getD i []).length = k ∧
      (∀ m, m < k → ((one_hot (n, k) index).getD i []).getD m 0 =
        if m = index.getD i 0 then 1 else 0) ∧
      ((one_hot (n, k) index).getD i []).sum = 1) := by
  have hoh : one_hot (n, k) index =
      index.map (fun j => (List.replicate k 0).set j 1) :=
    scatter_dim1_replicate 1 index n (List.replicate k 0) hlen
  rw [hoh]
  constructor
  · simp [hlen]
  · intro i hi
    have hi' : i < index.length := by rw [hlen]; exact hi
    rw [getD_map _ 0 [] index i hi']
    have hmem : index.getD i 0 ∈ index := by
      rw [List.getD_eq_getElem index 0 hi']
      exact List.getElem_mem hi'
    have hjk : index.getD i 0 < k := hbound _ hmem
    exact ⟨by simp,
      fun m hm => set_replicate_getD 1 k _ m hjk hm,
      set_replicate_sum k _ hjk⟩

/-- Witness for C9 at `size = (3, 3)`, `index = [2, 0, 1]` (the example in
the `one_hot` docstring). -/
theorem one_hot_spec_witness :
    (0 < 3 ∧ 0 < 3 ∧ [2, 0, 1].length = 3 ∧ (∀ j ∈ [2, 0, 1], j < 3)) ∧
    ((one_hot (3, 3) [2, 0, 1]).length = 3 ∧
     (∀ i, i < 3 →
       ((one_hot (3, 3) [2, 0, 1]).getD i []).length = 3 ∧
       (∀ m, m < 3 → ((one_hot (3, 3) [2, 0, 1]).getD i []).getD m 0 =
         if m = [2, 0, 1].getD i 0 then 1 else 0) ∧
       ((one_hot (3, 3) [2, 0, 1]).getD i []).sum = 1)) :=
  ⟨⟨by decide, by decide, by decide, by decide⟩,
   one_hot_spec 3 3 [2, 0, 1] (by decide) (by decide) (by decide) (by decide)⟩

/-! ### C6: machinery for the `get_name` sensitivity analysis

The stripping pipeline is analysed character by character: `normChars` (the
lowercase-and-replace stages) is a homomorphism for list append, fixes every
"clean" character, and `strip()` is the identity on the hash string because
it begins with an underscore and ends with a decimal digit.  The decimal
renderings `Nat.repr`, `Int.repr` and `toString : ℚ → String` are proved
injective, which reduces name equality to field equality segment by
segment. -/

theorem stripName_eq (s : String) :
    stripName s = String.mk (normChars (pyStrip s.data)) := rfl

theorem pyReplace_append (a b : List Char) (c : Char) (r : List Char) :
    pyReplace (a ++ b) c r = pyReplace a c r ++ pyReplace b c r := by
  simp [pyReplace]

theorem pyLower_append (a b : List Char) :
    pyLower (a ++ b) = pyLower a ++ pyLower b := by
  simp [pyLower]

theorem normChars_append (a b : List Char) :
    normChars (a ++ b) = normChars a ++ normChars b := by
  simp [normChars, pyLower_append, pyReplace_append]

theorem normChars_clean_single (c : Char) (h : cleanChar c = true) :
    normChars [c] = [c] := by
  simp only [cleanChar, Bool.and_eq_true, Bool.not_eq_true',
    Bool.not_eq_eq_eq_not, Bool.not_true, List.contains_cons,
    List.contains_nil, Bool.or_eq_false_iff, beq_eq_false_iff_ne, ne_eq] at h
  obtain ⟨⟨hw, hl⟩, h1, h2, h3, h4, h5, h6, h7, h8, h9, h10, -⟩ := h
  have hl2 : c.toLower = c := eq_of_beq hl
  simp [normChars, pyLower, pyReplace, hl2, h1, h2, h3, h4, h5, h6, h7, h8,
    h9, h10]

theorem normChars_clean :
    ∀ (l : List Char), (∀ ch ∈ l, cleanChar ch = true) → normChars l = l := by
  intro l
  induction l with
  | nil => intro _; rfl
  | cons c t ih =>
    intro h
    have hc : (c :: t) = [c] ++ t := rfl
    rw [hc, normChars_append, normChars_clean_single c (h c (by simp)),
      ih (fun ch hch => h ch (by simp [hch]))]

theorem dropWhile_eq_self_of_head {p : Char → Bool} (l : List Char)
    (h : ∀ c, l.head? = some c → ¬ p c = true) : l.dropWhile p = l := by
  cases l with
  | nil => rfl
  | cons a t => rw [List.dropWhile_cons, if_neg (h a rfl)]

theorem pyStrip_eq_self (l : List Char)
    (h1 : ∀ c, l.head? = some c → ¬ c.isWhitespace = true)
    (h2 : ∀ c, l.getLast? = some c → ¬ c.isWhitespace = true) :
    pyStrip l = l := by
  unfold pyStrip
  rw [dropWhile_eq_self_of_head l h1,
    dropWhile_eq_self_of_head l.reverse
      (fun c hc => h2 c (by rwa [List.head?_reverse] at hc)),
    List.reverse_reverse]

theorem string_ext {s t : String} (h : s.data = t.data) : s = t := by
  cases s
  cases t
  exact congrArg String.mk h

/-- One fully-fueled run of `Nat.toDigitsCore` produces the base-10 digit
characters, most significant first. -/
theorem toDigitsCore_eq_digits :
    ∀ (f n : ℕ) (acc : List Char), 0 < n → n ≤ f →
      Nat.toDigitsCore 10 f n acc =
        ((Nat.digits 10 n).map Nat.digitChar).reverse ++ acc := by
  intro f
  induction f with
  | zero => intro n acc h0 hf; omega
  | succ f ih =>
    intro n acc h0 hf
    rw [Nat.toDigitsCore]
    by_cases hx : n / 10 = 0
    · rw [if_pos hx]
      rw [Nat.digits_def' (by norm_num : (1:ℕ) < 10) h0, hx]
      simp
    · rw [if_neg hx]
      rw [ih (n / 10) _ (Nat.pos_of_ne_zero hx)
            (by
              have : n / 10 < n := Nat.div_lt_self h0 (by norm_num)
              omega)]
      rw [Nat.digits_def' (by norm_num : (1:ℕ) < 10) h0]
      simp

/-- The characters of `Nat.repr`. -/
theorem natRepr_data (n : ℕ) :
    (Nat.repr n).data =
      if n = 0 then ['0'] else ((Nat.digits 10 n).map Nat.digitChar).reverse := by
  by_cases h : n = 0
  · subst h; rfl
  · rw [if_neg h]
    show (Nat.toDigits 10 n).asString.data = _
    rw [Nat.toDigits,
      toDigitsCore_eq_digits (n + 1) n [] (Nat.pos_of_ne_zero h) (by omega)]
    simp [List.asString]

theorem digitChar_inj :
    ∀ a < 10, ∀ b < 10, Nat.digitChar a = Nat.digitChar b → a = b := by decide

theorem digitChar_clean : ∀ a < 10, cleanChar (Nat.digitChar a) = true := by decide

theorem digitChar_ne_mark :
    ∀ a < 10, Nat.digitChar a ≠ '_' ∧ Nat.digitChar a ≠ '/' ∧
      Nat.digitChar a ≠ '-' ∧ Nat.digitChar a ≠ 'l' ∧
      ¬ (Nat.digitChar a).isWhitespace = true := by decide

/-- Each character of `Nat.repr` is the image of a decimal digit. -/
theorem natRepr_mem (n : ℕ) :
    ∀ ch ∈ (Nat.repr n).data, ∃ d, d < 10 ∧ ch = Nat.digitChar d := by
  intro ch hch
  rw [natRepr_data] at hch
  by_cases h : n = 0
  · rw [if_pos h] at hch
    simp at hch
    exact ⟨0, by norm_num, by rw [hch]; rfl⟩
  · rw [if_neg h] at hch
    rw [List.mem_reverse, List.mem_map] at hch
    obtain ⟨d, hd, rfl⟩ := hch
    exact ⟨d, Nat.digits_lt_base (by norm_num) hd, rfl⟩

theorem natRepr_clean (n : ℕ) : ∀ ch ∈ (Nat.repr n).data, cleanChar ch = true := by
  intro ch hch
  obtain ⟨d, hd, rfl⟩ := natRepr_mem n ch hch
  exact digitChar_clean d hd

theorem natRepr_ne_nil (n : ℕ) : (Nat.repr n).data ≠ [] := by
  rw [natRepr_data]
  by_cases h : n = 0
  · simp [h]
  · rw [if_neg h]
    simp [Nat.digits_ne_nil_iff_ne_zero.mpr h]

theorem map_digitChar_inj :
    ∀ (l₁ l₂ : List ℕ), (∀ d ∈ l₁, d < 10) → (∀ d ∈ l₂, d < 10) →
      l₁.map Nat.digitChar = l₂.map Nat.digitChar → l₁ = l₂ := by
  intro l₁
  induction l₁ with
  | nil =>
    intro l₂ _ _ h
    cases l₂ with
    | nil => rfl
    | cons b t => simp at h
  | cons a t ih =>
    intro l₂ h1 h2 h
    cases l₂ with
    | nil => simp at h
    | cons b t₂ =>
      simp only [List.map_cons, List.cons.injEq] at h
      obtain ⟨hab, ht⟩ := h
      have ha : a = b := digitChar_inj a (h1 a (by simp)) b (h2 b (by simp)) hab
      rw [ha,
        ih t₂ (fun d hd => h1 d (by simp [hd])) (fun d hd => h2 d (by simp [hd])) ht]

/-- `Nat.repr` is injective. -/
theorem natRepr_inj : ∀ m n : ℕ, Nat.repr m = Nat.repr n → m = n := by
  have key : ∀ m n : ℕ, m ≠ 0 → n ≠ 0 →
      (Nat.repr m).data = (Nat.repr n).data → m = n := by
    intro m n hm hn h
    rw [natRepr_data, natRepr_data, if_neg hm, if_neg hn] at h
    have h2 := List.reverse_injective h
    have hd := map_digitChar_inj _ _
      (fun d hd => Nat.digits_lt_base (by norm_num) hd)
      (fun d hd => Nat.digits_lt_base (by norm_num) hd) h2
    calc m = Nat.ofDigits 10 (Nat.digits 10 m) := (Nat.ofDigits_digits 10 m).symm
    _ = Nat.ofDigits 10 (Nat.digits 10 n) := by rw [hd]
    _ = n := Nat.ofDigits_digits 10 n
  have zero_case : ∀ n : ℕ, n ≠ 0 → (Nat.repr 0).data ≠ (Nat.repr n).data := by
    intro n hn hdata
    rw [natRepr_data, natRepr_data, if_pos rfl, if_neg hn] at hdata
    have hrev : (Nat.digits 10 n).map Nat.digitChar = ['0'] := by
      have := congrArg List.reverse hdata
      simpa using this.symm
    have hdig : Nat.digits 10 n = [0] := by
      have h0 : ([0] : List ℕ).map Nat.digitChar = ['0'] := rfl
      exact map_digitChar_inj _ _
        (fun d hd => Nat.digits_lt_base (by norm_num) hd)
        (by intro d hd; simp at hd; omega) (by rw [hrev, h0])
    have hn0 : n = 0 := by
      have := Nat.ofDigits_digits 10 n
      rw [hdig] at this
      simpa [Nat.ofDigits] using this.symm
    exact hn hn0
  intro m n h
  have hdata : (Nat.repr m).data = (Nat.repr n).data := by rw [h]
  by_cases hm : m = 0 <;> by_cases hn : n = 0
  · rw [hm, hn]
  · exact absurd (hm ▸ hdata) (zero_case n hn)
  · exact absurd (hn ▸ hdata).symm (zero_case m hm)
  · exact key m n hm hn hdata

/-- The characters of `Int.repr`. -/
theorem intRepr_data (i : ℤ) :
    (Int.repr i).data =
      match i with
      | .ofNat m => (Nat.repr m).data
      | .negSucc m => '-' :: (Nat.repr (m + 1)).data := by
  cases i with
  | ofNat m => rfl
  | negSucc m =>
    show (("-" : String) ++ Nat.repr (m + 1)).data = _
    rw [String.data_append]
    rfl

theorem intRepr_mem (i : ℤ) :
    ∀ ch ∈ (Int.repr i).data, ch = '-' ∨ ∃ d, d < 10 ∧ ch = Nat.digitChar d := by
  intro ch hch
  rw [intRepr_data] at hch
  cases i with
  | ofNat m => exact Or.inr (natRepr_mem m ch hch)
  | negSucc m =>
    rcases List.mem_cons.mp hch with h | h
    · exact Or.inl h
    · exact Or.inr (natRepr_mem (m + 1) ch h)

theorem intRepr_clean (i : ℤ) : ∀ ch ∈ (Int.repr i).data, cleanChar ch = true := by
  intro ch hch
  rcases intRepr_mem i ch hch with h | ⟨d, hd, rfl⟩
  · rw [h]; decide
  · exact digitChar_clean d hd

theorem intRepr_no_slash (i : ℤ) : ∀ ch ∈ (Int.repr i).data, ch ≠ '/' := by
  intro ch hch
  rcases intRepr_mem i ch hch with h | ⟨d, hd, rfl⟩
  · rw [h]; decide
  · exact (digitChar_ne_mark d hd).2.1

theorem intRepr_ne_nil (i : ℤ) : (Int.repr i).data ≠ [] := by
  rw [intRepr_data]
  cases i with
  | ofNat m => exact natRepr_ne_nil m
  | negSucc m => simp

theorem intRepr_inj : ∀ i j : ℤ, Int.repr i = Int.repr j → i = j := by
  intro i j h
  have hdata : (Int.repr i).data = (Int.repr j).data := by rw [h]
  rw [intRepr_data, intRepr_data] at hdata
  cases i with
  | ofNat m =>
    cases j with
    | ofNat n =>
      dsimp only at hdata
      exact congrArg Int.ofNat (natRepr_inj m n (string_ext hdata))
    | negSucc n =>
      exfalso
      dsimp only at hdata
      have hm : '-' ∈ (Nat.repr m).data := by rw [hdata]; simp
      obtain ⟨d, hd, he⟩ := natRepr_mem m '-' hm
      exact (digitChar_ne_mark d hd).2.2.1 he.symm
  | negSucc m =>
    cases j with
    | ofNat n =>
      exfalso
      dsimp only at hdata
      have hm : '-' ∈ (Nat.repr n).data := by rw [← hdata]; simp
      obtain ⟨d, hd, he⟩ := natRepr_mem n '-' hm
      exact (digitChar_ne_mark d hd).2.2.1 he.symm
    | negSucc n =>
      dsimp only at hdata
      simp only [List.cons.injEq, true_and] at hdata
      have hmn := natRepr_inj (m + 1) (n + 1) (string_ext hdata)
      exact congrArg Int.negSucc (by omega)

/-- Splitting a concatenation at the first occurrence of a marker character
that neither token contains. -/
theorem append_split_marker (m : Char) :
    ∀ (A B x y : List Char), (∀ ch ∈ A, ch ≠ m) → (∀ ch ∈ B, ch ≠ m) →
      A ++ m :: x = B ++ m :: y → A = B ∧ x = y := by
  intro A
  induction A with
  | nil =>
    intro B x y _ hB h
    cases B with
    | nil => simpa using h
    | cons b B2 =>
      exfalso
      simp only [List.nil_append, List.cons_append, List.cons.injEq] at h
      exact hB b (by simp) h.1.symm
  | cons a A2 ih =>
    intro B x y hA hB h
    cases B with
    | nil =>
      exfalso
      simp only [List.nil_append, List.cons_append, List.cons.injEq] at h
      exact hA a (by simp) h.1
    | cons b B2 =>
      simp only [List.cons_append, List.cons.injEq] at h
      obtain ⟨rfl, h2⟩ := h
      obtain ⟨e1, e2⟩ := ih B2 x y (fun ch hch => hA ch (by simp [hch]))
        (fun ch hch => hB ch (by simp [hch])) h2
      exact ⟨by rw [e1], e2⟩

/-- Splitting a concatenation where both suffixes are empty or start with
the marker and neither token contains the marker. -/
theorem append_split_headed (m : Char) :
    ∀ (A B x y : List Char), (∀ ch ∈ A, ch ≠ m) → (∀ ch ∈ B, ch ≠ m) →
      (∀ c, x.head? = some c → c = m) → (∀ c, y.head? = some c → c = m) →
      A ++ x = B ++ y → A = B ∧ x = y := by
  intro A
  induction A with
  | nil =>
    intro B x y _ hB hx hy h
    cases B with
    | nil => simpa using h
    | cons b B2 =>
      exfalso
      simp only [List.nil_append, List.cons_append] at h
      have hb : b = m := hx b (by rw [h]; rfl)
      exact hB b (by simp) hb
  | cons a A2 ih =>
    intro B x y hA hB hx hy h
    cases B with
    | nil =>
      exfalso
      simp only [List.nil_append, List.cons_append] at h
      have ha : a = m := hy a (by rw [← h]; rfl)
      exact hA a (by simp) ha
    | cons b B2 =>
      simp only [List.cons_append, List.cons.injEq] at h
      obtain ⟨rfl, h2⟩ := h
      obtain ⟨e1, e2⟩ := ih B2 x y (fun ch hch => hA ch (by simp [hch]))
        (fun ch hch => hB ch (by simp [hch])) hx hy h2
      exact ⟨by rw [e1], e2⟩

/-- The characters of `toString` on a rational. -/
theorem ratToString_data (q : ℚ) :
    (toString q).data =
      if q.den = 1 then (Int.repr q.num).data
      else (Int.repr q.num).data ++ '/' :: (Nat.repr q.den).data := by
  show (if q.den = 1 then toString q.num
    else "" ++ toString q.num ++ "/" ++ toString q.den ++ "").data = _
  split_ifs with h
  · rfl
  · show (("" ++ Int.repr q.num ++ "/" ++ Nat.repr q.den ++ "")).data = _
    simp [String.data_append]

theorem ratToString_clean (q : ℚ) :
    ∀ ch ∈ (toString q).data, cleanChar ch = true := by
  intro ch hch
  rw [ratToString_data] at hch
  split_ifs at hch with h
  · exact intRepr_clean q.num ch hch
  · rcases List.mem_append.mp hch with h1 | h1
    · exact intRepr_clean q.num ch h1
    · rcases List.mem_cons.mp h1 with h2 | h2
      · rw [h2]; decide
      · exact natRepr_clean q.den ch h2

theorem ratToString_ne_nil (q : ℚ) : (toString q).data ≠ [] := by
  rw [ratToString_data]
  split_ifs with h
  · exact intRepr_ne_nil q.num
  · intro hc
    exact intRepr_ne_nil q.num (List.append_eq_nil.mp hc).1

theorem getLast?_append_right {α : Type} (a b : List α) (h : b ≠ []) :
    (a ++ b).getLast? = b.getLast? := by
  rw [List.getLast?_append]
  cases hb : b.getLast? with
  | none =>
    exfalso
    exact h (List.getLast?_eq_none_iff.mp hb)
  | some x => rfl

theorem natRepr_getLast_digit (n : ℕ) :
    ∀ c, (Nat.repr n).data.getLast? = some c →
      ∃ d, d < 10 ∧ c = Nat.digitChar d := by
  intro c hc
  exact natRepr_mem n c (List.mem_of_getLast?_eq_some hc)

theorem intRepr_getLast_digit (i : ℤ) :
    ∀ c, (Int.repr i).data.getLast? = some c →
      ∃ d, d < 10 ∧ c = Nat.digitChar d := by
  intro c hc
  rw [intRepr_data] at hc
  cases i with
  | ofNat m =>
    dsimp only at hc
    exact natRepr_getLast_digit m c hc
  | negSucc m =>
    dsimp only at hc
    rw [show ('-' :: (Nat.repr (m + 1)).data) =
        ['-'] ++ (Nat.repr (m + 1)).data from rfl,
      getLast?_append_right _ _ (natRepr_ne_nil (m + 1))] at hc
    exact natRepr_getLast_digit (m + 1) c hc

/-- The rendering of a rational ends in a decimal digit (so never in
whitespace). -/
theorem ratToString_getLast (q : ℚ) :
    ∀ c, (toString q).data.getLast? = some c →
      ∃ d, d < 10 ∧ c = Nat.digitChar d := by
  intro c hc
  rw [ratToString_data] at hc
  split_ifs at hc with h
  · exact intRepr_getLast_digit q.num c hc
  · rw [show ((Int.repr q.num).data ++ '/' :: (Nat.repr q.den).data) =
        ((Int.repr q.num).data ++ ['/']) ++ (Nat.repr q.den).data by simp,
      getLast?_append_right _ _ (natRepr_ne_nil q.den)] at hc
    exact natRepr_getLast_digit q.den c hc

/-- `toString` on rationals is injective. -/
theorem ratToString_inj : ∀ q₁ q₂ : ℚ, toString q₁ = toString q₂ → q₁ = q₂ := by
  intro q₁ q₂ h
  have hdata : (toString q₁).data = (toString q₂).data := by rw [h]
  rw [ratToString_data, ratToString_data] at hdata
  have hext : q₁.num = q₂.num → q₁.den = q₂.den → q₁ = q₂ := by
    intro h1 h2
    cases q₁
    cases q₂
    simp_all
  split_ifs at hdata with h1 h2 h2
  · exact hext (intRepr_inj _ _ (string_ext hdata)) (h1.trans h2.symm)
  · exfalso
    have hs : '/' ∈ (Int.repr q₁.num).data := by rw [hdata]; simp
    exact intRepr_no_slash q₁.num '/' hs rfl
  · exfalso
    have hs : '/' ∈ (Int.repr q₂.num).data := by rw [← hdata]; simp
    exact intRepr_no_slash q₂.num '/' hs rfl
  · obtain ⟨e1, e2⟩ := append_split_marker '/' _ _ _ _
      (intRepr_no_slash q₁.num) (intRepr_no_slash q₂.num) hdata
    exact hext (intRepr_inj _ _ (string_ext e1))
      (natRepr_inj _ _ (string_ext e2))

theorem toString_nat (n : ℕ) : toString n = Nat.repr n := rfl

theorem intercalate_go_data (s : String) :
    ∀ (as : List String) (acc : String),
      (String.intercalate.go acc s as).data =
        acc.data ++ as.flatMap (fun a => s.data ++ a.data) := by
  intro as
  induction as with
  | nil => intro acc; simp [String.intercalate.go]
  | cons a t ih =>
    intro acc
    show (String.intercalate.go (acc ++ s ++ a) s t).data = _
    rw [ih]
    simp [String.data_append]

theorem pyListStr_data (l : List ℕ) :
    (pyListStr l).data =
      match l with
      | [] => ['[', ']']
      | n :: rest =>
        '[' :: (((Nat.repr n).data ++
          rest.flatMap (fun a => ',' :: ' ' :: (Nat.repr a).data)) ++ [']']) := by
  cases l with
  | nil => rfl
  | cons n rest =>
    show ("[" ++ String.intercalate ", " ((n :: rest).map toString) ++ "]").data = _
    rw [String.data_append, String.data_append]
    rw [List.map_cons]
    show ("[".data ++
      (String.intercalate.go (toString n) ", " (rest.map toString)).data ++
      "]".data) = _
    rw [intercalate_go_data]
    simp only [toString_nat, List.flatMap_map]
    rfl

theorem normChars_comma_seg (a : ℕ) :
    normChars (',' :: ' ' :: (Nat.repr a).data) = '_' :: (Nat.repr a).data := by
  have h1 : (',' :: ' ' :: (Nat.repr a).data) = [',', ' '] ++ (Nat.repr a).data := rfl
  rw [h1, normChars_append, normChars_clean _ (natRepr_clean a)]
  rfl

theorem normChars_flatMap_seg :
    ∀ rest : List ℕ,
      normChars (rest.flatMap (fun a => ',' :: ' ' :: (Nat.repr a).data)) =
        rest.flatMap (fun a => '_' :: (Nat.repr a).data) := by
  intro rest
  induction rest with
  | nil => rfl
  | cons a t ih =>
    rw [List.flatMap_cons, List.flatMap_cons, normChars_append,
      normChars_comma_seg, ih]

/-- The stripping pipeline turns the Python list rendering into the
underscore-joined form. -/
theorem normChars_pyListStr (l : List ℕ) :
    normChars (pyListStr l).data = joinShape l := by
  rw [pyListStr_data]
  cases l with
  | nil => rfl
  | cons n rest =>
    show normChars (['['] ++ (((Nat.repr n).data ++
      rest.flatMap (fun a => ',' :: ' ' :: (Nat.repr a).data)) ++ [']'])) = _
    rw [normChars_append, normChars_append, normChars_append,
      normChars_clean _ (natRepr_clean n), normChars_flatMap_seg]
    show [] ++ (((Nat.repr n).data ++ _) ++ []) = _
    rw [List.nil_append, List.append_nil, joinShape]

theorem natRepr_no_underscore (n : ℕ) : ∀ ch ∈ (Nat.repr n).data, ch ≠ '_' := by
  intro ch hch
  obtain ⟨d, hd, rfl⟩ := natRepr_mem n ch hch
  exact (digitChar_ne_mark d hd).1

theorem flatMap_seg_head :
    ∀ (v : List ℕ) (c : Char),
      (v.flatMap (fun a => '_' :: (Nat.repr a).data)).head? = some c → c = '_' := by
  intro v c h
  cases v with
  | nil => simp at h
  | cons a t =>
    rw [List.flatMap_cons, List.cons_append, List.head?_cons] at h
    exact (Option.some.injEq _ _ ▸ h).symm

theorem flatMap_seg_inj :
    ∀ v w : List ℕ,
      v.flatMap (fun a => '_' :: (Nat.repr a).data) =
        w.flatMap (fun a => '_' :: (Nat.repr a).data) → v = w := by
  intro v
  induction v with
  | nil =>
    intro w h
    cases w with
    | nil => rfl
    | cons b u => simp at h
  | cons a t ih =>
    intro w h
    cases w with
    | nil => simp at h
    | cons b u =>
      simp only [List.flatMap_cons, List.cons_append, List.cons.injEq,
        true_and] at h
      obtain ⟨e1, e2⟩ := append_split_headed '_' _ _ _ _
        (natRepr_no_underscore a) (natRepr_no_underscore b)
        (flatMap_seg_head t) (flatMap_seg_head u) h
      rw [natRepr_inj a b (string_ext e1), ih u e2]

/-- The underscore-joined shape rendering is injective. -/
theorem joinShape_inj : ∀ v w : List ℕ, joinShape v = joinShape w → v = w := by
  intro v w h
  cases v with
  | nil =>
    cases w with
    | nil => rfl
    | cons b u =>
      exfalso
      rw [joinShape, joinShape] at h
      exact natRepr_ne_nil b (List.append_eq_nil.mp h.symm).1
  | cons a t =>
    cases w with
    | nil =>
      exfalso
      rw [joinShape, joinShape] at h
      exact natRepr_ne_nil a (List.append_eq_nil.mp h).1
    | cons b u =>
      rw [joinShape, joinShape] at h
      obtain ⟨e1, e2⟩ := append_split_headed '_' _ _ _ _
        (natRepr_no_underscore a) (natRepr_no_underscore b)
        (flatMap_seg_head t) (flatMap_seg_head u) h
      rw [natRepr_inj a b (string_ext e1), flatMap_seg_inj t u e2]

theorem digitChar_not_ws (c : Char) (h : ∃ d, d < 10 ∧ c = Nat.digitChar d) :
    ¬ c.isWhitespace = true := by
  obtain ⟨d, hd, rfl⟩ := h
  exact (digitChar_ne_mark d hd).2.2.2.2

/-- The character-level decomposition of `get_name`: the stripping pipeline
leaves the fixed separators, the decimal renderings, and the normalised
`nll_type`/`reparam_type` segments, in order. -/
theorem get_name_data (c : Config) :
    (get_name c).data =
      "vae_".data ++ c.task.data ++
      "_input".data ++ joinShape c.input_shape ++
      (if c.reparam_type = "mixture" then
        "_disc".data ++ (Nat.repr c.discrete_size).data ++
        "_cont".data ++ (Nat.repr c.continuous_size).data
       else "latent".data ++ (Nat.repr c.continuous_size).data) ++
      "_batch".data ++ (Nat.repr c.batch_size).data ++
      "_mut".data ++ (toString c.mut_reg).data ++
      "_filter_depth".data ++ (Nat.repr c.filter_depth).data ++
      "_nll".data ++ normChars c.nll_type.data ++
      "_reparam".data ++ normChars c.reparam_type.data ++
      "_lr".data ++ (toString c.lr).data := by
  have hlast : ∀ (pre : List Char) (c' : Char),
      (pre ++ (toString c.lr).data).getLast? = some c' →
        ¬ c'.isWhitespace = true := by
    intro pre c' hc
    rw [getLast?_append_right _ _ (ratToString_ne_nil c.lr)] at hc
    exact digitChar_not_ws c' (ratToString_getLast c.lr c' hc)
  by_cases hmix : c.reparam_type = "mixture"
  · simp only [get_name]
    rw [if_pos hmix, if_pos hmix, stripName_eq]
    show ("vae_".data ++ c.task.data) ++ normChars (pyStrip _) = _
    simp only [String.data_append]
    rw [pyStrip_eq_self]
    · simp only [normChars_append, normChars_pyListStr,
        toString_nat,
        normChars_clean _ (natRepr_clean c.discrete_size),
        normChars_clean _ (natRepr_clean c.continuous_size),
        normChars_clean _ (natRepr_clean c.batch_size),
        normChars_clean _ (natRepr_clean c.filter_depth),
        normChars_clean _ (ratToString_clean c.mut_reg),
        normChars_clean _ (ratToString_clean c.lr),
        show normChars "_input".data = "_input".data from rfl,
        show normChars "_disc".data = "_disc".data from rfl,
        show normChars "_cont".data = "_cont".data from rfl,
        show normChars "_batch".data = "_batch".data from rfl,
        show normChars "_mut".data = "_mut".data from rfl,
        show normChars "_filter_depth".data = "_filter_depth".data from rfl,
        show normChars "_nll".data = "_nll".data from rfl,
        show normChars "_reparam".data = "_reparam".data from rfl,
        show normChars "_lr".data = "_lr".data from rfl]
      simp [List.append_assoc]
    · intro c' hc
      simp only [List.cons_append, List.append_assoc, List.head?_cons,
        Option.some.injEq] at hc
      rw [← hc]
      decide
    · intro c' hc
      exact hlast _ c' hc
  · simp only [get_name]
    rw [if_neg hmix, if_neg hmix, stripName_eq]
    show ("vae_".data ++ c.task.data) ++ normChars (pyStrip _) = _
    simp only [String.data_append]
    rw [pyStrip_eq_self]
    · simp only [normChars_append, normChars_pyListStr,
        toString_nat,
        normChars_clean _ (natRepr_clean c.continuous_size),
        normChars_clean _ (natRepr_clean c.batch_size),
        normChars_clean _ (natRepr_clean c.filter_depth),
        normChars_clean _ (ratToString_clean c.mut_reg),
        normChars_clean _ (ratToString_clean c.lr),
        show normChars "_input".data = "_input".data from rfl,
        show normChars "latent".data = "latent".data from rfl,
        show normChars "_batch".data = "_batch".data from rfl,
        show normChars "_mut".data = "_mut".data from rfl,
        show normChars "_filter_depth".data = "_filter_depth".data from rfl,
        show normChars "_nll".data = "_nll".data from rfl,
        show normChars "_reparam".data = "_reparam".data from rfl,
        show normChars "_lr".data = "_lr".data from rfl]
      simp [List.append_assoc]
    · intro c' hc
      simp only [List.cons_append, List.append_assoc, List.head?_cons,
        Option.some.injEq] at hc
      rw [← hc]
      decide
    · intro c' hc
      exact hlast _ c' hc

theorem normChars_bernoulli : normChars "bernoulli".data = "bernoulli".data := rfl

theorem normChars_gaussian : normChars "gaussian".data = "gaussian".data := rfl

theorem normChars_iso :
    normChars "isotropic_gaussian".data = "isotropic_gaussian".data := rfl

theorem normChars_discrete : normChars "discrete".data = "discrete".data := rfl

theorem normChars_mixture : normChars "mixture".data = "mixture".data := rfl

/-- C6 (amended): `get_name` is deterministic, and it is sensitive to every
topologically relevant hyperparameter except `discrete_size` under a
non-mixture reparameterizer: changing `input_shape`, `continuous_size`
(under any reparam type), `discrete_size` (under mixture), `batch_size`,
`mut_reg`, `filter_depth`, `lr`, or — between their valid enumerated
values — `nll_type` or `reparam_type`, always yields a different string,
while changing `discrete_size` under a non-mixture reparam type never
changes the string. -/
theorem get_name_characterization :
    (∀ c₁ c₂ : Config, c₁ = c₂ → get_name c₁ = get_name c₂) ∧
    (∀ (c : Config) (d : ℕ), c.reparam_type ≠ "mixture" →
      get_name { c with discrete_size := d } = get_name c) ∧
    (∀ (c : Config) (v : List ℕ), v ≠ c.input_shape →
      get_name { c with input_shape := v } ≠ get_name c) ∧
    (∀ (c : Config) (v : ℕ), v ≠ c.continuous_size →
      get_name { c with continuous_size := v } ≠ get_name c) ∧
    (∀ (c : Config) (v : ℕ), c.reparam_type = "mixture" → v ≠ c.discrete_size →
      get_name { c with discrete_size := v } ≠ get_name c) ∧
    (∀ (c : Config) (v : ℕ), v ≠ c.batch_size →
      get_name { c with batch_size := v } ≠ get_name c) ∧
    (∀ (c : Config) (v : ℚ), v ≠ c.mut_reg →
      get_name { c with mut_reg := v } ≠ get_name c) ∧
    (∀ (c : Config) (v : ℕ), v ≠ c.filter_depth →
      get_name { c with filter_depth := v } ≠ get_name c) ∧
    (∀ (c : Config) (v : ℚ), v ≠ c.lr →
      get_name { c with lr := v } ≠ get_name c) ∧
    (∀ (c : Config) (v : String),
      (c.nll_type = "bernoulli" ∨ c.nll_type = "gaussian") →
      (v = "bernoulli" ∨ v = "gaussian") → v ≠ c.nll_type →
      get_name { c with nll_type := v } ≠ get_name c) ∧
    (∀ (c : Config) (v : String),
      (c.reparam_type = "isotropic_gaussian" ∨ c.reparam_type = "discrete" ∨
        c.reparam_type = "mixture") →
      (v = "isotropic_gaussian" ∨ v = "discrete" ∨ v = "mixture") →
      v ≠ c.reparam_type →
      get_name { c with reparam_type := v } ≠ get_name c) := by
  refine ⟨fun c₁ c₂ h => by rw [h], fun c d h => by simp [get_name, if_neg h],
    ?_, ?_, ?_, ?_, ?_, ?_, ?_, ?_, ?_⟩
  · intro c v hv h
    have hd := congrArg String.data h
    rw [get_name_data, get_name_data] at hd
    dsimp only at hd
    simp only [List.append_assoc] at hd
    repeat rw [List.append_right_inj] at hd
    exact hv (joinShape_inj v c.input_shape (List.append_cancel_right hd))
  · intro c v hv h
    have hd := congrArg String.data h
    rw [get_name_data, get_name_data] at hd
    dsimp only at hd
    by_cases hmix : c.reparam_type = "mixture"
    · rw [if_pos hmix, if_pos hmix] at hd
      simp only [List.append_assoc] at hd
      repeat rw [List.append_right_inj] at hd
      exact hv (natRepr_inj v c.continuous_size
        (string_ext (List.append_cancel_right hd)))
    · rw [if_neg hmix, if_neg hmix] at hd
      simp only [List.append_assoc] at hd
      repeat rw [List.append_right_inj] at hd
      exact hv (natRepr_inj v c.continuous_size
        (string_ext (List.append_cancel_right hd)))
  · intro c v hmix hv h
    have hd := congrArg String.data h
    rw [get_name_data, get_name_data] at hd
    dsimp only at hd
    rw [if_pos hmix, if_pos hmix] at hd
    simp only [List.append_assoc] at hd
    repeat rw [List.append_right_inj] at hd
    exact hv (natRepr_inj v c.discrete_size
      (string_ext (List.append_cancel_right hd)))
  · intro c v hv h
    have hd := congrArg String.data h
    rw [get_name_data, get_name_data] at hd
    dsimp only at hd
    simp only [List.append_assoc] at hd
    repeat rw [List.append_right_inj] at hd
    exact hv (natRepr_inj v c.batch_size
      (string_ext (List.append_cancel_right hd)))
  · intro c v hv h
    have hd := congrArg String.data h
    rw [get_name_data, get_name_data] at hd
    dsimp only at hd
    simp only [List.append_assoc] at hd
    repeat rw [List.append_right_inj] at hd
    exact hv (ratToString_inj v c.mut_reg
      (string_ext (List.append_cancel_right hd)))
  · intro c v hv h
    have hd := congrArg String.data h
    rw [get_name_data, get_name_data] at hd
    dsimp only at hd
    simp only [List.append_assoc] at hd
    repeat rw [List.append_right_inj] at hd
    exact hv (natRepr_inj v c.filter_depth
      (string_ext (List.append_cancel_right hd)))
  · intro c v hv h
    have hd := congrArg String.data h
    rw [get_name_data, get_name_data] at hd
    dsimp only at hd
    simp only [List.append_assoc] at hd
    repeat rw [List.append_right_inj] at hd
    exact hv (ratToString_inj v c.lr (string_ext hd))
  · intro c v hcv hvv hv h
    have hd := congrArg String.data h
    rw [get_name_data, get_name_data] at hd
    dsimp only at hd
    rcases hvv with rfl | rfl <;> rcases hcv with hcv | hcv
    · exact hv hcv.symm
    · rw [hcv, normChars_bernoulli, normChars_gaussian] at hd
      simp only [List.append_assoc] at hd
      rw [List.append_right_inj, List.append_right_inj, List.append_right_inj,
        List.append_right_inj, List.append_right_inj, List.append_right_inj,
        List.append_right_inj, List.append_right_inj, List.append_right_inj,
        List.append_right_inj, List.append_right_inj, List.append_right_inj] at hd
      exact absurd (List.append_cancel_right hd) (by decide)
    · rw [hcv, normChars_bernoulli, normChars_gaussian] at hd
      simp only [List.append_assoc] at hd
      rw [List.append_right_inj, List.append_right_inj, List.append_right_inj,
        List.append_right_inj, List.append_right_inj, List.append_right_inj,
        List.append_right_inj, List.append_right_inj, List.append_right_inj,
        List.append_right_inj, List.append_right_inj, List.append_right_inj] at hd
      exact absurd (List.append_cancel_right hd) (by decide)
    · exact hv hcv.symm
  · intro c v hcv hvv hv h
    have hd := congrArg String.data h
    rw [get_name_data, get_name_data] at hd
    dsimp only at hd
    rcases hvv with rfl | rfl | rfl <;> rcases hcv with hcv | hcv | hcv
    · exact hv hcv.symm
    · rw [hcv] at hd
      rw [if_neg (by decide), if_neg (by decide), normChars_iso,
        normChars_discrete] at hd
      simp only [List.append_assoc] at hd
      rw [List.append_right_inj, List.append_right_inj, List.append_right_inj,
        List.append_right_inj, List.append_right_inj, List.append_right_inj,
        List.append_right_inj, List.append_right_inj, List.append_right_inj,
        List.append_right_inj, List.append_right_inj, List.append_right_inj,
        List.append_right_inj, List.append_right_inj, List.append_right_inj] at hd
      exact absurd (List.append_cancel_right hd) (by decide)
    · rw [hcv] at hd
      rw [if_neg (by decide), if_pos rfl] at hd
      simp only [List.append_assoc] at hd
      rw [List.append_right_inj, List.append_right_inj, List.append_right_inj,
        List.append_right_inj] at hd
      simp only [List.cons_append, List.cons.injEq] at hd
      exact absurd hd.1 (by decide)
    · rw [hcv] at hd
      rw [if_neg (by decide), if_neg (by decide), normChars_discrete,
        normChars_iso] at hd
      simp only [List.append_assoc] at hd
      rw [List.append_right_inj, List.append_right_inj, List.append_right_inj,
        List.append_right_inj, List.append_right_inj, List.append_right_inj,
        List.append_right_inj, List.append_right_inj, List.append_right_inj,
        List.append_right_inj, List.append_right_inj, List.append_right_inj,
        List.append_right_inj, List.append_right_inj, List.append_right_inj] at hd
      exact absurd (List.append_cancel_right hd) (by decide)
    · exact hv hcv.symm
    · rw [hcv] at hd
      rw [if_neg (by decide), if_pos rfl] at hd
      simp only [List.append_assoc] at hd
      rw [List.append_right_inj, List.append_right_inj, List.append_right_inj,
        List.append_right_inj] at hd
      simp only [List.cons_append, List.cons.injEq] at hd
      exact absurd hd.1 (by decide)
    · rw [hcv] at hd
      rw [if_pos rfl, if_neg (by decide)] at hd
      simp only [List.append_assoc] at hd
      rw [List.append_right_inj, List.append_right_inj, List.append_right_inj,
        List.append_right_inj] at hd
      simp only [List.cons_append, List.cons.injEq] at hd
      exact absurd hd.1 (by decide)
    · rw [hcv] at hd
      rw [if_pos rfl, if_neg (by decide)] at hd
      simp only [List.append_assoc] at hd
      rw [List.append_right_inj, List.append_right_inj, List.append_right_inj,
        List.append_right_inj] at hd
      simp only [List.cons_append, List.cons.injEq] at hd
      exact absurd hd.1 (by decide)
    · exact hv hcv.symm

/-- Witness for C6 (amended): `discrete_size` independence and
`continuous_size` sensitivity applied at `baseConfig` (a
`"discrete"`-reparameterizer config). -/
theorem get_name_characterization_witness :
    (baseConfig.reparam_type ≠ "mixture" ∧
     get_name { baseConfig with discrete_size := 20 } = get_name baseConfig) ∧
    ((9 : ℕ) ≠ baseConfig.continuous_size ∧
     get_name { baseConfig with continuous_size := 9 } ≠ get_name baseConfig) :=
  ⟨⟨by decide, get_name_characterization.2.1 baseConfig 20 (by decide)⟩,
   ⟨by decide, get_name_characterization.2.2.2.1 baseConfig 9 (by decide)⟩⟩

end LifelongVAE
